import Mathlib

/-!
Verification of the samplest declarative-contract engine.

The definitions below are a shallow embedding of the engine found in the
repository's `lib.js` (placeholder/content generation, the `ContextManager`
path model, the `repeat` and `cast` post-processors) and `api.js`
(the `ContentBuilder` orchestrator with its except-case override selector).

Modelling conventions:
* JavaScript values are the tagged union `Value` (undefined, null, booleans,
  numbers, strings, arrays, plain objects).  Numbers are modelled as `Int`:
  every numeral appearing in the engine's own logic and tests is integral;
  IEEE floating point is outside the model.
* Objects are association lists in insertion order; JSON input never carries
  duplicate keys.  Property lookup is own-property lookup (the prototype
  chain, the array `length` property and non-index array properties are
  outside the JSON data model and are never exercised by the claims).
* Code that can throw a runtime `TypeError`/`Error` returns
  `Except String Value`.
* `Math.random()` draws are passed in explicitly as a rational `rnd` with
  `0 ≤ rnd < 1`.
-/

namespace Samplest

/-- A JavaScript/JSON value as handled by the engine. -/
inductive Value where
  | undefined : Value
  | null : Value
  | bool : Bool → Value
  | num : Int → Value
  | str : String → Value
  | arr : List Value → Value
  | obj : List (String × Value) → Value

namespace Value

mutual

def beq : Value → Value → Bool
  | .undefined, .undefined => true
  | .null, .null => true
  | .bool a, .bool b => a == b
  | .num a, .num b => a == b
  | .str a, .str b => a == b
  | .arr a, .arr b => beqList a b
  | .obj a, .obj b => beqObj a b
  | _, _ => false

def beqList : List Value → List Value → Bool
  | [], [] => true
  | a :: as, b :: bs => beq a b && beqList as bs
  | _, _ => false

def beqObj : List (String × Value) → List (String × Value) → Bool
  | [], [] => true
  | (k, a) :: as, (l, b) :: bs => k == l && beq a b && beqObj as bs
  | _, _ => false

end

mutual

theorem beq_correct : ∀ a b : Value, beq a b = true ↔ a = b
  | .undefined, b => by cases b <;> simp [beq]
  | .null, b => by cases b <;> simp [beq]
  | .bool x, b => by cases b <;> simp [beq]
  | .num x, b => by cases b <;> simp [beq]
  | .str x, b => by cases b <;> simp [beq]
  | .arr xs, b => by
      cases b <;> simp [beq]
      exact beqList_correct xs _
  | .obj xs, b => by
      cases b <;> simp [beq]
      exact beqObj_correct xs _

theorem beqList_correct : ∀ a b : List Value, beqList a b = true ↔ a = b
  | [], b => by cases b <;> simp [beqList]
  | x :: xs, b => by
      cases b with
      | nil => simp [beqList]
      | cons y ys =>
          simp only [beqList, Bool.and_eq_true, List.cons.injEq]
          exact and_congr (beq_correct x y) (beqList_correct xs ys)

theorem beqObj_correct : ∀ a b : List (String × Value), beqObj a b = true ↔ a = b
  | [], b => by cases b <;> simp [beqObj]
  | (k, x) :: xs, b => by
      cases b with
      | nil => simp [beqObj]
      | cons y ys =>
          obtain ⟨l, v⟩ := y
          simp only [beqObj, Bool.and_eq_true, List.cons.injEq, Prod.mk.injEq]
          constructor
          · rintro ⟨⟨h1, h2⟩, h3⟩
            exact ⟨⟨by simpa using h1, (beq_correct x v).1 h2⟩, (beqObj_correct xs ys).1 h3⟩
          · rintro ⟨⟨h1, h2⟩, h3⟩
            exact ⟨⟨by simpa using h1, (beq_correct x v).2 h2⟩, (beqObj_correct xs ys).2 h3⟩

end

instance : DecidableEq Value := fun a b =>
  decidable_of_iff (beq a b = true) (beq_correct a b)

instance {ε α : Type} [DecidableEq ε] [DecidableEq α] : DecidableEq (Except ε α) := fun a b =>
  match a, b with
  | .ok a, .ok b => decidable_of_iff (a = b) (by simp)
  | .error a, .error b => decidable_of_iff (a = b) (by simp)
  | .ok _, .error _ => isFalse (by simp)
  | .error _, .ok _ => isFalse (by simp)

/-- JavaScript truthiness (the model carries no `NaN`). -/
def isTruthy : Value → Bool
  | .undefined => false
  | .null => false
  | .bool b => b
  | .num n => n != 0
  | .str s => s != ""
  | .arr _ => true
  | .obj _ => true

/-- `results.constructor === Object || Array.isArray(results)` -/
def isContainer : Value → Bool
  | .arr _ => true
  | .obj _ => true
  | _ => false

def isArr : Value → Bool
  | .arr _ => true
  | _ => false

def elems : Value → List Value
  | .arr xs => xs
  | _ => []

end Value

/-- Wildcard char to lookup any item from a dataset (`WILDCARD` in lib.js). -/
def WILDCARD : String := "*"

/-- A string that is a canonical array index (`"0"`, `"1"`, ...): this is the
only kind of string key that addresses an element of a JS array. -/
def toIndex? (s : String) : Option Nat :=
  let cs := s.data
  if cs ≠ [] && cs.all Char.isDigit && (cs = ['0'] || cs.headD '0' ≠ '0') then
    some (cs.foldl (fun acc c => acc * 10 + (c.toNat - '0'.toNat)) 0)
  else
    none

/-- Own-property lookup `source[field]`; a missing property reads as
`undefined`.  (Property reads on primitives box and yield `undefined`;
reads on `null`/`undefined` throw and are handled by the callers.) -/
def getField (v : Value) (k : String) : Value :=
  match v with
  | .obj kvs => (kvs.lookup k).getD .undefined
  | .arr xs =>
      match toIndex? k with
      | some i => (xs.get? i).getD .undefined
      | none => .undefined
  | _ => .undefined

/-- The `field in source` test, own properties only (callers guarantee
`source` is an object or an array; `in` on a primitive throws). -/
def hasField (v : Value) (k : String) : Bool :=
  match v with
  | .obj kvs => kvs.any (fun p => p.1 = k)
  | .arr xs =>
      match toIndex? k with
      | some i => i < xs.length
      | none => false
  | _ => false

/-- `kvs[k] = x` on an object: overwrite the existing slot in place, or
append a new one. -/
def assignKey : List (String × Value) → String → Value → List (String × Value)
  | [], k, x => [(k, x)]
  | (k', v') :: rest, k, x =>
      if k' = k then (k, x) :: rest else (k', v') :: assignKey rest k x

/-- `xs[i] = x` on an array: in-range assignment replaces the element;
out-of-range assignment grows the array, filling holes with `undefined`. -/
def setIdx (xs : List Value) (i : Nat) (x : Value) : List Value :=
  if i < xs.length then xs.set i x
  else xs ++ List.replicate (i - xs.length) .undefined ++ [x]

/-- `source[field] = x`.  Assigning a non-index key to an array stores a
non-element property on the array object; such properties are invisible to
the JSON model (and to `JSON.stringify`), so the array is left unchanged. -/
def setField (v : Value) (k : String) (x : Value) : Value :=
  match v with
  | .obj kvs => .obj (assignKey kvs k x)
  | .arr xs =>
      match toIndex? k with
      | some i => .arr (setIdx xs i x)
      | none => v
  | other => other

/-- `ContextManager.read` (lib.js): consume one path segment per step.
An exhausted path returns the current value; the wildcard over an array
sub-reads every element with a copy of the remaining path, keeping the
non-null results in order; otherwise `source[field] || null` is read
(throwing on `null`/`undefined` sources) and containers are recursed into. -/
def read : Value → List String → Except String Value
  | source, [] => .ok source
  | source, field :: rest =>
      if field = WILDCARD ∧ source.isArr = true then
        (source.elems.foldr (fun x (acc : Except String (List Value)) => do
            let v ← read x rest
            let vs ← acc
            if v = Value.null then pure vs else pure (v :: vs)) (.ok [])).map Value.arr
      else if source = .null ∨ source = .undefined then
        .error "TypeError: cannot read properties of null or undefined"
      else
        let results := if (getField source field).isTruthy then getField source field
                       else Value.null
        if results = .null then .ok .null
        else if results.isContainer then read results rest
        else .ok results

/-- `ContextManager.write` (lib.js): at path exhaustion apply the content
callback; the wildcard writes every array element with a copy of the
remaining path; an existing field is recursed into; a missing field is
assigned `content(undefined)` (note: the remaining path segments are
dropped).  `field in source` throws on a primitive source. -/
def write (content : Value → Except String Value) : Value → List String → Except String Value
  | source, [] => content source
  | source, field :: rest =>
      if field = WILDCARD ∧ source.isArr = true then
        (source.elems.foldr (fun x (acc : Except String (List Value)) => do
            let y ← write content x rest
            let ys ← acc
            pure (y :: ys)) (.ok [])).map Value.arr
      else if source.isContainer = true then
        if hasField source field then
          (write content (getField source field) rest).map (setField source field)
        else
          (content .undefined).map (setField source field)
      else
        .error "TypeError: cannot use in operator on a primitive"

/-- `field.split('.')` on the character list: cut at every dot, keeping
empty pieces. -/
def splitDotAux : List Char → List (List Char)
  | [] => [[]]
  | c :: rest =>
      if c = '.' then [] :: splitDotAux rest
      else
        match splitDotAux rest with
        | [] => [[c]]
        | p :: ps => (c :: p) :: ps

/-- `field.split('.')`. -/
def splitDot (s : String) : List String :=
  (splitDotAux s.data).map (fun cs => String.mk cs)

/-- `ContextManager.get`: dotted-field read. -/
def cmGet (ctx : Value) (field : String) : Except String Value :=
  read ctx (splitDot field)

/-- `ContextManager.set`: dotted-field write. -/
def cmSet (content : Value → Except String Value) (ctx : Value) (field : String) :
    Except String Value :=
  write content ctx (splitDot field)

mutual

/-- JavaScript `value.toString()` / `String(value)` on the model.
Arrays render as the comma-join of their elements, with `null`/`undefined`
elements rendering empty; plain objects render as `[object Object]`. -/
def jsToString : Value → String
  | .undefined => "undefined"
  | .null => "null"
  | .bool true => "true"
  | .bool false => "false"
  | .num n => toString n
  | .str s => s
  | .arr xs => jsToStringList xs
  | .obj _ => "[object Object]"

def jsToStringList : List Value → String
  | [] => ""
  | [.undefined] => ""
  | [.null] => ""
  | [x] => jsToString x
  | .undefined :: xs => "," ++ jsToStringList xs
  | .null :: xs => "," ++ jsToStringList xs
  | x :: xs => jsToString x ++ "," ++ jsToStringList xs

end

/-- `s.toLowerCase()`, character by character. -/
def toLowerJS (s : String) : String :=
  String.mk (s.data.map Char.toLower)

/-- Numeric value of a list of decimal digit characters. -/
def digitsToNat (ds : List Char) : Nat :=
  ds.foldl (fun acc c => acc * 10 + (c.toNat - '0'.toNat)) 0

/-- The longest leading digit run, parsed; `none` when there is none. -/
def parseDigits (cs : List Char) : Option Nat :=
  let ds := cs.takeWhile Char.isDigit
  if ds.isEmpty then none else some (digitsToNat ds)

/-- JS `parseInt(s, 10)` on the model: skip leading whitespace, read an
optional sign and then the longest leading run of decimal digits; `none`
is `NaN` (no digits at all). -/
def parseIntJS (cs : List Char) : Option Int :=
  let cs := cs.dropWhile (fun c => c = ' ')
  if cs.headD ' ' = '-' then (parseDigits cs.tail).map (fun n => -(n : Int))
  else if cs.headD ' ' = '+' then (parseDigits cs.tail).map (fun n => (n : Int))
  else (parseDigits cs).map (fun n => (n : Int))

/-- JS `Number(s)` restricted to the model's integer numbers: trimmed empty
input is `0`; otherwise an optional sign followed by digits only (fraction,
exponent and radix-prefix literals lie outside the integral model); `none`
is `NaN`. -/
def strToNumberJS (s : String) : Option Int :=
  let cs := ((s.data.dropWhile (fun c => c = ' ')).reverse.dropWhile (fun c => c = ' ')).reverse
  if cs = [] then some 0
  else if cs.headD ' ' = '-' then
    if cs.tail ≠ [] && cs.tail.all Char.isDigit then some (-(digitsToNat cs.tail : Int))
    else none
  else if cs.headD ' ' = '+' then
    if cs.tail ≠ [] && cs.tail.all Char.isDigit then some (digitsToNat cs.tail : Int)
    else none
  else if cs.all Char.isDigit then some (digitsToNat cs : Int)
  else none

/-- JS `s.split("..")`: cut at every non-overlapping occurrence of `..`,
left to right. -/
def splitDD : List Char → List (List Char)
  | [] => [[]]
  | [c] => [[c]]
  | c :: d :: rest =>
      if c = '.' ∧ d = '.' then [] :: splitDD rest
      else
        match splitDD (d :: rest) with
        | [] => [[c]]
        | p :: ps => (c :: p) :: ps

/-- `n || dflt` on a JS number that may be `NaN` (`none`): both `NaN` and
`0` are falsy and select the default. -/
def jsOrNum (o : Option Int) (dflt : Int) : Int :=
  match o with
  | none => dflt
  | some 0 => dflt
  | some n => n

/-- `count` whole copies of `list`, concatenated in order (the
`stack`/`concat` loop of `repeatContent`). -/
def joinCopies : Nat → List Value → List Value
  | 0, _ => []
  | n + 1, l => l ++ joinCopies n l

/-- `repeatContent` (lib.js).  A `min..max` formula draws
`Math.floor(rnd * (max - min + 1) + min)` (a `NaN` or `0` bound defaults to
the list length); a plain formula is `parseInt`-ed (`NaN` or a negative
count runs the copy loop zero times). -/
def repeatContent (list : List Value) (formula : String) (rnd : ℚ) : List Value :=
  let parts := splitDD formula.data
  if parts.length > 1 then
    let minValue : Int := jsOrNum (parseIntJS (parts.headD [])) list.length
    let maxValue : Int := jsOrNum (parseIntJS ((parts.drop 1).headD [])) list.length
    let total : Int := ⌊rnd * ((maxValue : ℚ) - (minValue : ℚ) + 1) + (minValue : ℚ)⌋
    joinCopies total.toNat list
  else
    joinCopies ((parseIntJS formula.data).getD 0).toNat list

/-- `castContent` (lib.js): absent values and failed number/boolean parses
yield inline diagnostic strings; only an unsupported cast type throws. -/
def castContent (type : String) (value : Value) : Except String Value :=
  if value = .undefined ∨ value = .null then
    .ok (.str ("<cannot cast \"" ++ jsToString value ++ "\" as " ++ type ++ ">"))
  else if type = "number" then
    match strToNumberJS (jsToString value) with
    | some n => .ok (.num n)
    | none => .ok (.str ("<\"" ++ jsToString value ++ "\" is not a number>"))
  else if type = "boolean" then
    if toLowerJS (jsToString value) = "true" then .ok (.bool true)
    else if toLowerJS (jsToString value) = "false" then .ok (.bool false)
    else .ok (.str ("<\"" ++ jsToString value ++ "\" is not a boolean>"))
  else if type = "string" then
    .ok (.str (jsToString value))
  else
    .error ("Unsupported cast type \"" ++ type ++ "\"")

mutual

/-- `generateContent` (lib.js) on an already-parsed template value (the
`JSON.stringify`/`JSON.parse` shuttling of the source is the identity on
JSON values).  Arrays and plain objects are rebuilt element-wise /
entry-wise; a scalar leaf is stringified and passed to the transform.
A `null` leaf hits `null.constructor` and throws a `TypeError`; `undefined`
cannot be produced by `JSON.parse` and is likewise an error. -/
def generateContent (tf : String → String) : Value → Except String Value
  | .arr xs => (generateContentList tf xs).map Value.arr
  | .obj kvs => (generateContentObj tf kvs).map Value.obj
  | .null => .error "TypeError: cannot read constructor of null"
  | .undefined => .error "SyntaxError: undefined is not valid JSON"
  | v => .ok (.str (tf (jsToString v)))

def generateContentList (tf : String → String) : List Value → Except String (List Value)
  | [] => .ok []
  | x :: xs => do
      let y ← generateContent tf x
      let ys ← generateContentList tf xs
      pure (y :: ys)

def generateContentObj (tf : String → String) :
    List (String × Value) → Except String (List (String × Value))
  | [] => .ok []
  | (k, x) :: xs => do
      let y ← generateContent tf x
      let ys ← generateContentObj tf xs
      pure ((k, y) :: ys)

end

/-- The per-call request context handed to except-case predicates: the
`{ route, query, headers, payload }` fields destructured by
`_validateExceptions` (the `time` field is not exposed to predicates). -/
structure RequestContext where
  route : Value
  query : Value
  headers : Value
  payload : Value

/-- The `$data` metadata of a response (`ResponseMetadataObject`).
The `repeat` field is named `rep` because `repeat` is a Lean keyword. -/
structure Metadata where
  cast : Option (List (String × String))
  rep : Option String

/-- A stored response specification (`ResponseObject` fields as kept on a
handler / an except case): status code, optional header map (`§3`: header
keys map to values; an absent or falsy `headers` is `none`), data template
and optional `$data` metadata. -/
structure RawResponse where
  code : Value
  headers : Option (List (String × Value))
  data : Value
  meta : Option Metadata

/-- One except case (`ExceptCaseObject`): the ordered predicate list and the
alternate response.  A predicate is the denotation of the one-line JS source
compiled by `Function(...)`: a function of the request context fields. -/
structure ExceptCase where
  validate : List (RequestContext → Value)
  response : RawResponse

/-- One step of the predicate loop of `_validateExceptions`:
`undefined` abstains, strict `true` passes, anything else fires the case. -/
def caseFires (ctx : RequestContext) : List (RequestContext → Value) → Bool
  | [] => false
  | t :: rest =>
      let rs := t ctx
      if rs = .undefined then caseFires ctx rest
      else if rs ≠ .bool true then true
      else caseFires ctx rest

/-- `Object.assign(response.headers, { 'X-Assertion': assertion })`, with
`response.headers` first replaced by `{}` when absent/falsy.  This updates
the stored response object in place in the source. -/
def mergeAssertionHeaders (resp : RawResponse) (assertion : String) : RawResponse :=
  let hs := match resp.headers with
    | none => []
    | some hs => hs
  { resp with headers := some (assignKey hs "X-Assertion" (.str assertion)) }

/-- `_validateExceptions` (api.js): walk the cases in declaration order;
the first case one of whose predicates fires is selected, its assertion
header is merged into its (stored) response, and no later case is touched.
The second component is the case table after the call, capturing the
in-place mutation of the fired case. -/
def validateExceptions (ctx : RequestContext) :
    List (String × ExceptCase) → Option (String × RawResponse) × List (String × ExceptCase)
  | [] => (none, [])
  | (assertion, c) :: rest =>
      if caseFires ctx c.validate then
        let resp := mergeAssertionHeaders c.response assertion
        (some (assertion, resp), (assertion, { c with response := resp }) :: rest)
      else
        let (r, rest') := validateExceptions ctx rest
        (r, (assertion, c) :: rest')

/-- `OutgoingResponseObject`: what `ContentBuilder.generate` returns. -/
structure Outgoing where
  code : Value
  headers : Value
  content : Value
  flow : Option String

/-- The `ContentBuilder` state: normalized request defaults, the default
response and the optional ordered except-case table (the `ExceptHandler`'s
only state is its validated `cases` record). -/
structure ContentBuilder where
  request : Value
  response : RawResponse
  except : Option (List (String × ExceptCase))

/-- `_postprocessContent` (api.js): `repeat` first (only on array content,
only for a truthy formula), then each `cast` entry is written through the
`ContextManager` over the freshly generated content. -/
def postprocessContent (rnd : ℚ) (content : Value) (meta : Option Metadata) :
    Except String Value :=
  let castO := match meta with | none => none | some m => m.cast
  let repO := match meta with | none => none | some m => m.rep
  let content := match repO, content with
    | some f, .arr xs => if f ≠ "" then .arr (repeatContent xs f rnd) else .arr xs
    | _, c => c
  match castO with
  | none => .ok content
  | some entries =>
      entries.foldlM (fun acc kv => cmSet (castContent kv.2) acc kv.1) content

/-- `_generateResponse` (api.js): generate content and headers from frozen
copies of the chosen response's templates (content leaves through `tfC`,
header leaves through the case-folding `tfH`; both stand for the
`fake`-then-`interpret` chain), postprocess, and carry the flow label. -/
def generateResponse (tfH tfC : String → String) (rnd : ℚ) (res : RawResponse)
    (flow : Option String) : Except String Outgoing := do
  let content ← generateContent tfC res.data
  let headers ← match res.headers with
    | none => .ok (Value.obj [])
    | some hs => generateContent tfH (Value.obj hs)
  let post ← postprocessContent rnd content res.meta
  pure { code := res.code, headers := headers, content := post, flow := flow }

/-- `ContentBuilder.generate` (api.js) for an already-built request context:
run the override selector when an except table is present; a fired case
supplies its (assertion-header-merged) response and its name as `flow`,
otherwise the default response is generated with a `null` flow.  The
returned builder carries the case table after the call (the selector
mutates the fired case in place). -/
def generate (cb : ContentBuilder) (ctx : RequestContext) (tfH tfC : String → String)
    (rnd : ℚ) : Except String (Outgoing × ContentBuilder) := do
  match cb.except with
  | some cases =>
      let sel := validateExceptions ctx cases
      let cb' := { cb with except := some sel.2 }
      match sel.1 with
      | some (assertion, resp) => do
          let o ← generateResponse tfH tfC rnd resp (some assertion)
          pure (o, cb')
      | none => do
          let o ← generateResponse tfH tfC rnd cb.response none
          pure (o, cb')
  | none => do
      let o ← generateResponse tfH tfC rnd cb.response none
      pure (o, cb)

/-! ### Specification-side notions

The definitions below restate parts of the specification's wording; the
theorems relate them to the source-derived functions above. -/

/-- The spec's three-way classification of a predicate result. -/
inductive PredClass where
  | abstain
  | pass
  | fail
deriving DecidableEq

/-- Spec classification: abstain is exactly `undefined`, pass is strictly
boolean `true`, fail is anything else. -/
def classifyPred (rs : Value) : PredClass :=
  if rs = .undefined then .abstain
  else if rs = .bool true then .pass
  else .fail

/-- The value of one header key of a stored response. -/
def headerValue (resp : RawResponse) (k : String) : Option Value :=
  match resp.headers with
  | none => none
  | some hs => hs.lookup k

/-- Projection used to observe the stored except table of a builder:
the headers of its first case's response. -/
def firstCaseHeaders (cb : ContentBuilder) : Option (List (String × Value)) :=
  match cb.except with
  | some ((_, c) :: _) => c.response.headers
  | _ => none

/-! ### The override selector (claim C1) -/

theorem caseFires_iff_exists_fail (ctx : RequestContext) :
    ∀ ps : List (RequestContext → Value),
      caseFires ctx ps = true ↔ ∃ t ∈ ps, classifyPred (t ctx) = PredClass.fail
  | [] => by simp [caseFires]
  | t :: rest => by
      have step : caseFires ctx (t :: rest) =
          (if t ctx = .undefined then caseFires ctx rest
           else if t ctx ≠ .bool true then true else caseFires ctx rest) := rfl
      rw [step]
      by_cases h1 : t ctx = .undefined
      · rw [if_pos h1, caseFires_iff_exists_fail ctx rest]
        constructor
        · rintro ⟨u, hu, hcl⟩; exact ⟨u, List.mem_cons_of_mem _ hu, hcl⟩
        · rintro ⟨u, hu, hcl⟩
          rcases List.mem_cons.1 hu with rfl | hu
          · simp [classifyPred, h1] at hcl
          · exact ⟨u, hu, hcl⟩
      · by_cases h2 : t ctx = .bool true
        · rw [if_neg h1, if_neg (by simp [h2]), caseFires_iff_exists_fail ctx rest]
          constructor
          · rintro ⟨u, hu, hcl⟩; exact ⟨u, List.mem_cons_of_mem _ hu, hcl⟩
          · rintro ⟨u, hu, hcl⟩
            rcases List.mem_cons.1 hu with rfl | hu
            · simp [classifyPred, h1, h2] at hcl
            · exact ⟨u, hu, hcl⟩
        · rw [if_neg h1, if_pos (by simp [h2])]
          simp only [true_iff]
          exact ⟨t, List.mem_cons_self _ _, by simp [classifyPred, h1, h2]⟩

theorem lookup_assignKey_self (k : String) (x : Value) :
    ∀ kvs : List (String × Value), (assignKey kvs k x).lookup k = some x
  | [] => by simp [assignKey]
  | (k', v') :: rest => by
      unfold assignKey
      by_cases h : k' = k
      · simp [h]
      · rw [if_neg h]
        have hne : (k == k') = false := beq_eq_false_iff_ne.2 (fun e => h e.symm)
        simp [List.lookup, hne, lookup_assignKey_self k x rest]

theorem headerValue_mergeAssertion (resp : RawResponse) (a : String) :
    headerValue (mergeAssertionHeaders resp a) "X-Assertion" = some (.str a) := by
  unfold mergeAssertionHeaders headerValue
  cases resp.headers <;> simp [lookup_assignKey_self]

/-- If no case of the table fires, the selector reports nothing and the
table is returned unchanged. -/
theorem validateExceptions_none (ctx : RequestContext) :
    ∀ cases : List (String × ExceptCase),
      (∀ p ∈ cases, caseFires ctx p.2.validate = false) →
      validateExceptions ctx cases = (none, cases)
  | [], _ => rfl
  | (a, c) :: rest, h => by
      unfold validateExceptions
      rw [h (a, c) (List.mem_cons_self _ _)]
      simp only [Bool.false_eq_true, if_false]
      rw [validateExceptions_none ctx rest (fun p hp => h p (List.mem_cons_of_mem _ hp))]

/-- The first case to fire, in declaration order, is selected with its
assertion header merged into its stored response; the cases after it are
not examined (the selected pair does not depend on them). -/
theorem validateExceptions_fire (ctx : RequestContext) (a : String) (c : ExceptCase)
    (post : List (String × ExceptCase)) (hc : caseFires ctx c.validate = true) :
    ∀ pre : List (String × ExceptCase),
      (∀ p ∈ pre, caseFires ctx p.2.validate = false) →
      validateExceptions ctx (pre ++ (a, c) :: post) =
        (some (a, mergeAssertionHeaders c.response a),
         pre ++ (a, { c with response := mergeAssertionHeaders c.response a }) :: post)
  | [], _ => by
      rw [List.nil_append]
      simp only [validateExceptions, hc, if_true, List.nil_append]
  | (b, d) :: pre, h => by
      have hd : caseFires ctx d.validate = false := h (b, d) (List.mem_cons_self _ _)
      have ih := validateExceptions_fire ctx a c post hc pre
        (fun p hp => h p (List.mem_cons_of_mem _ hp))
      rw [List.cons_append]
      simp only [validateExceptions, hd, Bool.false_eq_true, if_false, ih]
      simp

theorem exBind_ok {α β : Type} (a : α) (f : α → Except String β) :
    (Except.ok a >>= f) = f a := rfl

theorem exBind_error {α β : Type} (e : String) (f : α → Except String β) :
    ((Except.error e : Except String α) >>= f) = Except.error e := rfl

/-- A successful `_generateResponse` carries the requested flow label and
the chosen response's status code. -/
theorem generateResponse_ok {tfH tfC : String → String} {rnd : ℚ} {res : RawResponse}
    {flow : Option String} {o : Outgoing}
    (h : generateResponse tfH tfC rnd res flow = .ok o) :
    o.flow = flow ∧ o.code = res.code := by
  unfold generateResponse at h
  cases hc : generateContent tfC res.data with
  | error e => rw [hc, exBind_error] at h; exact absurd h (by simp)
  | ok content =>
      rw [hc, exBind_ok] at h
      cases hhs : res.headers with
      | none =>
          rw [hhs] at h
          simp only [exBind_ok, exBind_error] at h
          cases hp : postprocessContent rnd content res.meta with
          | error e => rw [hp] at h; simp [exBind_error] at h
          | ok post =>
              rw [hp] at h
              simp only [exBind_ok] at h
              cases h
              exact ⟨rfl, rfl⟩
      | some hs =>
          rw [hhs] at h
          simp only [exBind_ok, exBind_error] at h
          cases hh : generateContent tfH (Value.obj hs) with
          | error e => rw [hh] at h; simp [exBind_error] at h
          | ok headers =>
              rw [hh] at h
              simp only [exBind_ok, exBind_error] at h
              cases hp : postprocessContent rnd content res.meta with
              | error e => rw [hp] at h; simp [exBind_error] at h
              | ok post =>
                  rw [hp] at h
                  simp only [exBind_ok] at h
                  cases h
                  exact ⟨rfl, rfl⟩

/-- `generate` when the selector picks a case. -/
theorem generate_fire {cb : ContentBuilder} {ctx : RequestContext}
    {tfH tfC : String → String} {rnd : ℚ} {cases cases' : List (String × ExceptCase)}
    {a : String} {resp : RawResponse}
    (hcb : cb.except = some cases)
    (hsel : validateExceptions ctx cases = (some (a, resp), cases')) :
    generate cb ctx tfH tfC rnd =
      (generateResponse tfH tfC rnd resp (some a)).map
        (fun o => (o, { cb with except := some cases' })) := by
  unfold generate
  rw [hcb]
  simp only [hsel]
  cases generateResponse tfH tfC rnd resp (some a) <;> rfl

/-- `generate` when no case fires (or for the no-fire selector result):
the default response is generated with an empty flow and the builder is
returned untouched. -/
theorem generate_nofire {cb : ContentBuilder} {ctx : RequestContext}
    {tfH tfC : String → String} {rnd : ℚ} {cases : List (String × ExceptCase)}
    (hcb : cb.except = some cases)
    (hall : ∀ p ∈ cases, caseFires ctx p.2.validate = false) :
    generate cb ctx tfH tfC rnd =
      (generateResponse tfH tfC rnd cb.response none).map (fun o => (o, cb)) := by
  have hsel := validateExceptions_none ctx cases hall
  obtain ⟨rq, rs, ex⟩ := cb
  simp only at hcb
  subst hcb
  unfold generate
  simp only [hsel]
  cases generateResponse tfH tfC rnd rs none <;> rfl

/-- C1: for every ordered except table and request context, each predicate
result is classified abstain (exactly `undefined`), pass (strictly boolean
`true`) or fail (anything else, which fires the case); the first case to
fire in declaration order supplies the response, its name becomes the flow
field and is merged into that response's headers as the assertion header
(the selected pair does not depend on the later cases, which are not
evaluated); when no case fires the default response is generated with an
empty flow. -/
theorem except_override_selection
    (cb : ContentBuilder) (pre post : List (String × ExceptCase)) (a : String)
    (c : ExceptCase) (ctx : RequestContext) (tfH tfC : String → String) (rnd : ℚ)
    (hcb : cb.except = some (pre ++ (a, c) :: post))
    (hpre : ∀ p ∈ pre, caseFires ctx p.2.validate = false)
    (hc : caseFires ctx c.validate = true) :
    (∀ ps : List (RequestContext → Value),
        caseFires ctx ps = true ↔ ∃ t ∈ ps, classifyPred (t ctx) = PredClass.fail) ∧
    (validateExceptions ctx (pre ++ (a, c) :: post)).1
      = some (a, mergeAssertionHeaders c.response a) ∧
    headerValue (mergeAssertionHeaders c.response a) "X-Assertion" = some (.str a) ∧
    generate cb ctx tfH tfC rnd
      = (generateResponse tfH tfC rnd (mergeAssertionHeaders c.response a) (some a)).map
          (fun o => (o, { cb with except := some (pre ++
              (a, { c with response := mergeAssertionHeaders c.response a }) :: post) })) ∧
    (∀ (o : Outgoing) (cb' : ContentBuilder),
        generate cb ctx tfH tfC rnd = .ok (o, cb') →
        o.flow = some a ∧ o.code = c.response.code) ∧
    (∀ (cb₂ : ContentBuilder) (cases₂ : List (String × ExceptCase)),
        cb₂.except = some cases₂ →
        (∀ p ∈ cases₂, caseFires ctx p.2.validate = false) →
        generate cb₂ ctx tfH tfC rnd
          = (generateResponse tfH tfC rnd cb₂.response none).map (fun o => (o, cb₂)) ∧
        (∀ (o : Outgoing) (cb' : ContentBuilder),
            generate cb₂ ctx tfH tfC rnd = .ok (o, cb') → o.flow = none)) := by
  have hsel := validateExceptions_fire ctx a c post hc pre hpre
  have hgen := @generate_fire cb ctx tfH tfC rnd _ _ _ _ hcb hsel
  refine ⟨caseFires_iff_exists_fail ctx, by rw [hsel], headerValue_mergeAssertion _ _,
    hgen, ?_, ?_⟩
  · intro o cb' ho
    rw [hgen] at ho
    cases hr : generateResponse tfH tfC rnd (mergeAssertionHeaders c.response a) (some a) with
    | error e => rw [hr] at ho; simp [Except.map] at ho
    | ok og =>
        rw [hr] at ho
        simp only [Except.map] at ho
        cases ho
        have := generateResponse_ok hr
        exact ⟨this.1, this.2⟩
  · intro cb₂ cases₂ hcb₂ hall₂
    have hgen₂ := @generate_nofire cb₂ ctx tfH tfC rnd cases₂ hcb₂ hall₂
    refine ⟨hgen₂, ?_⟩
    intro o cb' ho
    rw [hgen₂] at ho
    cases hr : generateResponse tfH tfC rnd cb₂.response none with
    | error e => rw [hr] at ho; simp [Except.map] at ho
    | ok og =>
        rw [hr] at ho
        simp only [Except.map] at ho
        cases ho
        exact (generateResponse_ok hr).1

/-- A concrete one-case except table whose single predicate evaluates to a
non-`true`, non-`undefined` value (`false`), so the case fires. -/
def exampleCase : ExceptCase :=
  { validate := [fun _ => .bool false],
    response := { code := .num 400, headers := none, data := .str "denied", meta := none } }

/-- A concrete builder holding `exampleCase` under the name `"A"`. -/
def exampleBuilder : ContentBuilder :=
  { request := .obj [],
    response := { code := .num 200, headers := some [], data := .str "ok", meta := none },
    except := some [("A", exampleCase)] }

/-- A concrete request context. -/
def exampleCtx : RequestContext :=
  ⟨.obj [], .obj [], .obj [], .obj []⟩

theorem except_override_selection_witness :
    (validateExceptions exampleCtx [("A", exampleCase)]).1
      = some ("A", mergeAssertionHeaders exampleCase.response "A") ∧
    headerValue (mergeAssertionHeaders exampleCase.response "A") "X-Assertion"
      = some (.str "A") := by
  have h := except_override_selection exampleBuilder [] [] "A" exampleCase exampleCtx
    id id 0 rfl (by simp) (by decide)
  exact ⟨h.2.1, h.2.2.1⟩

/-! ### Load-time specification objects across calls (claim C3) -/

/-- The builder state a successful `generate` returns: the request and the
default response are carried over untouched; the stored except table becomes
the selector's post-call table. -/
theorem generate_ok_builder {cb : ContentBuilder} {ctx : RequestContext}
    {tfH tfC : String → String} {rnd : ℚ} {o : Outgoing} {cb' : ContentBuilder}
    (h : generate cb ctx tfH tfC rnd = .ok (o, cb')) :
    cb'.request = cb.request ∧ cb'.response = cb.response ∧
    (cb.except = none → cb' = cb) ∧
    (∀ cases, cb.except = some cases →
        cb'.except = some (validateExceptions ctx cases).2) := by
  cases hex : cb.except with
  | none =>
      unfold generate at h
      rw [hex] at h
      cases hr : generateResponse tfH tfC rnd cb.response none with
      | error e => rw [hr, exBind_error] at h; exact absurd h (by simp)
      | ok og =>
          rw [hr, exBind_ok] at h
          cases h
          exact ⟨rfl, rfl, fun _ => rfl, fun cases hcases => absurd hcases (by simp)⟩
  | some cases =>
      rcases hv : validateExceptions ctx cases with ⟨s1, s2⟩
      unfold generate at h
      rw [hex] at h
      simp only [hv] at h
      cases s1 with
      | none =>
          cases hr : generateResponse tfH tfC rnd cb.response none with
          | error e => rw [hr, exBind_error] at h; exact absurd h (by simp)
          | ok og =>
              rw [hr, exBind_ok] at h
              cases h
              refine ⟨rfl, rfl, fun hc => absurd hc (by simp), ?_⟩
              intro cases₂ hc
              cases hc
              rw [hv]
      | some sel =>
          obtain ⟨a, resp⟩ := sel
          replace h : (generateResponse tfH tfC rnd resp (some a) >>= fun og =>
              pure (og, ContentBuilder.mk cb.request cb.response (some s2)))
              = Except.ok (o, cb') := h
          cases hr : generateResponse tfH tfC rnd resp (some a) with
          | error e => rw [hr, exBind_error] at h; exact absurd h (by simp)
          | ok og =>
              rw [hr, exBind_ok] at h
              cases h
              refine ⟨rfl, rfl, fun hc => absurd hc (by simp), ?_⟩
              intro cases₂ hc
              cases hc
              rw [hv]

theorem assignKey_idem (k : String) (x : Value) :
    ∀ kvs : List (String × Value), assignKey (assignKey kvs k x) k x = assignKey kvs k x
  | [] => by simp [assignKey]
  | (k', v') :: rest => by
      by_cases h : k' = k
      · simp [assignKey, h]
      · simp only [assignKey, if_neg h]
        rw [assignKey_idem k x rest]

/-- Merging the assertion header is idempotent: repeating a call re-merges
the same header into the already-mutated stored case. -/
theorem mergeAssertionHeaders_idem (resp : RawResponse) (a : String) :
    mergeAssertionHeaders (mergeAssertionHeaders resp a) a
      = mergeAssertionHeaders resp a := by
  unfold mergeAssertionHeaders
  cases resp.headers <;> simp [assignKey_idem]

/-- C3 (amended): a call to `generate` never mutates the stored request
spec or the stored default response spec, and leaves the except table
untouched when no case fires; but the first case to fire is mutated in
place: the assertion header is merged into its stored response headers and
persists across calls (the merge is idempotent, so repeated calls converge
on the once-mutated table). -/
theorem spec_mutation_frame
    (cb : ContentBuilder) (ctx : RequestContext) (tfH tfC : String → String) (rnd : ℚ)
    (o : Outgoing) (cb' : ContentBuilder)
    (h : generate cb ctx tfH tfC rnd = .ok (o, cb')) :
    cb'.request = cb.request ∧ cb'.response = cb.response ∧
    (cb.except = none → cb' = cb) ∧
    (∀ cases, cb.except = some cases →
        (∀ p ∈ cases, caseFires ctx p.2.validate = false) → cb' = cb) ∧
    (∀ pre a c post, cb.except = some (pre ++ (a, c) :: post) →
        (∀ p ∈ pre, caseFires ctx p.2.validate = false) →
        caseFires ctx c.validate = true →
        cb'.except = some (pre ++
          (a, { c with response := mergeAssertionHeaders c.response a }) :: post)) ∧
    (∀ resp a, mergeAssertionHeaders (mergeAssertionHeaders resp a) a
        = mergeAssertionHeaders resp a) := by
  obtain ⟨h1, h2, h3, h4⟩ := generate_ok_builder h
  refine ⟨h1, h2, h3, ?_, ?_, mergeAssertionHeaders_idem⟩
  · intro cases hcases hall
    have hx := h4 cases hcases
    rw [validateExceptions_none ctx cases hall] at hx
    have : cb'.except = cb.except := by rw [hx, hcases]
    obtain ⟨rq, rs, ex⟩ := cb
    obtain ⟨rq', rs', ex'⟩ := cb'
    simp only at h1 h2 this
    rw [h1, h2, this]
  · intro pre a c post hcases hpre hc
    have hx := h4 _ hcases
    rw [validateExceptions_fire ctx a c post hc pre hpre] at hx
    exact hx

/-- The fired example call, evaluated: the response carries the assertion
header and flow `"A"`, and the builder returned alongside it holds the
mutated case. -/
def exampleOutgoing : Outgoing :=
  { code := .num 400, headers := .obj [("X-Assertion", .str "A")],
    content := .str "denied", flow := some "A" }

/-- `exampleBuilder` after one fired call: the stored case's response now
carries the merged assertion header. -/
def exampleBuilderAfter : ContentBuilder :=
  { exampleBuilder with
    except := some [("A",
      { exampleCase with response := mergeAssertionHeaders exampleCase.response "A" })] }

theorem exampleGenerate :
    generate exampleBuilder exampleCtx id id 0 = .ok (exampleOutgoing, exampleBuilderAfter) :=
  rfl

/-- C3 counterexample: the claim says the stored except-case objects are
identical before and after every call, but after the example call the first
case's stored response headers changed from absent to carrying the
assertion header. -/
theorem spec_immutability_counterexample :
    firstCaseHeaders exampleBuilder = none ∧
    (generate exampleBuilder exampleCtx id id 0).map (fun p => firstCaseHeaders p.2)
      = .ok (some [("X-Assertion", .str "A")]) ∧
    (none : Option (List (String × Value))) ≠ some [("X-Assertion", .str "A")] := by
  refine ⟨rfl, ?_, by decide⟩
  rw [exampleGenerate]
  rfl

theorem spec_mutation_frame_witness :
    exampleBuilderAfter.request = exampleBuilder.request ∧
    exampleBuilderAfter.response = exampleBuilder.response := by
  have h := spec_mutation_frame exampleBuilder exampleCtx id id 0
    exampleOutgoing exampleBuilderAfter exampleGenerate
  exact ⟨h.1, h.2.1⟩

/-! ### The path value model: field-level lemmas -/

theorem isTruthy_ne_null {v : Value} (h : v.isTruthy = true) : v ≠ .null := by
  intro e; subst e; simp [Value.isTruthy] at h

theorem isContainer_ne_null {v : Value} (h : v.isContainer = true) : v ≠ .null := by
  intro e; subst e; simp [Value.isContainer] at h

theorem isContainer_ne_undef {v : Value} (h : v.isContainer = true) : v ≠ .undefined := by
  intro e; subst e; simp [Value.isContainer] at h

theorem isContainer_truthy {v : Value} (h : v.isContainer = true) : v.isTruthy = true := by
  cases v <;> simp_all [Value.isContainer, Value.isTruthy]

theorem isContainer_not_arr_obj {v : Value} (h : v.isContainer = true)
    (ha : v.isArr = false) : ∃ kvs, v = .obj kvs := by
  cases v <;> simp_all [Value.isContainer, Value.isArr]

theorem hasField_obj_of_lookup {k : String} {u : Value} :
    ∀ kvs : List (String × Value), kvs.lookup k = some u → hasField (.obj kvs) k = true
  | [], h => by simp [List.lookup] at h
  | (k', v') :: rest, h => by
      simp only [hasField, List.any_cons, Bool.or_eq_true]
      by_cases e : k = k'
      · left; simp [e]
      · right
        have hkk : (k == k') = false := by simpa using e
        simp only [List.lookup, hkk] at h
        have := hasField_obj_of_lookup rest h
        simpa [hasField] using this

theorem lookup_none_not_hasField {k : String} :
    ∀ kvs : List (String × Value), kvs.lookup k = none → hasField (.obj kvs) k = false
  | [], _ => by simp [hasField]
  | (k', v') :: rest, h => by
      by_cases e : k = k'
      · subst e; simp [List.lookup] at h
      · have hkk : (k == k') = false := by simpa using e
        simp only [List.lookup, hkk] at h
        have ih := lookup_none_not_hasField rest h
        simp only [hasField] at ih
        simp only [hasField, List.any_cons, Bool.or_eq_false_iff, decide_eq_false_iff_not, ih,
          and_true]
        exact fun hh => e hh.symm

/-- A truthy property read implies the property passes the `in` test. -/
theorem hasField_of_truthy {v : Value} {k : String}
    (h : (getField v k).isTruthy = true) : hasField v k = true := by
  cases v with
  | obj kvs =>
      cases hl : kvs.lookup k with
      | none => simp only [getField, hl, Option.getD] at h; simp [Value.isTruthy] at h
      | some u => exact hasField_obj_of_lookup _ hl
  | arr xs =>
      cases hi : toIndex? k with
      | none => simp only [getField, hi] at h; simp [Value.isTruthy] at h
      | some i =>
          simp only [getField, hi] at h
          cases hg : xs.get? i with
          | none => rw [hg] at h; simp [Option.getD, Value.isTruthy] at h
          | some u =>
              have hlt : i < xs.length := by
                by_contra hge
                rw [List.get?_eq_none.2 (by omega)] at hg
                exact absurd hg (by simp)
              simp [hasField, hi, hlt]
  | undefined => simp [getField, Value.isTruthy] at h
  | null => simp [getField, Value.isTruthy] at h
  | bool b => simp [getField, Value.isTruthy] at h
  | num n => simp [getField, Value.isTruthy] at h
  | str s => simp [getField, Value.isTruthy] at h

/-- After `source[field] = x`, reading `field` back yields `x` (for a field
that passed the `in` test). -/
theorem getField_setField {v : Value} {k : String} (x : Value)
    (h : hasField v k = true) : getField (setField v k x) k = x := by
  cases v with
  | obj kvs => simp [setField, getField, lookup_assignKey_self]
  | arr xs =>
      cases hi : toIndex? k with
      | none => simp only [hasField, hi] at h; exact absurd h (by simp)
      | some i =>
          simp only [hasField, hi, decide_eq_true_eq] at h
          simp only [setField, hi, getField, setIdx, if_pos h]
          rw [List.get?_set_eq_of_lt x h]
          rfl
  | undefined => simp [hasField] at h
  | null => simp [hasField] at h
  | bool b => simp [hasField] at h
  | num n => simp [hasField] at h
  | str s => simp [hasField] at h

theorem setField_isContainer {v : Value} (k : String) (x : Value)
    (h : v.isContainer = true) : (setField v k x).isContainer = true := by
  cases v with
  | obj kvs => simp [setField, Value.isContainer]
  | arr xs => cases hti : toIndex? k <;> simp [setField, hti, Value.isContainer]
  | undefined => simp [Value.isContainer] at h
  | null => simp [Value.isContainer] at h
  | bool b => simp [Value.isContainer] at h
  | num n => simp [Value.isContainer] at h
  | str s => simp [Value.isContainer] at h

/-! ### get/set round trip (claim C2) -/

/-- An "existing path" in the sense of the read convention: every segment is
a non-wildcard key whose value is truthy, every non-final step lands on a
container, and a scalar step must be the final one. -/
def pathResolves : Value → List String → Bool
  | _, [] => true
  | v, k :: rest =>
      k != WILDCARD && v.isContainer && (getField v k).isTruthy &&
        (if (getField v k).isContainer = true then pathResolves (getField v k) rest
         else rest.isEmpty)

/-- A successful write along a non-empty path into a container yields a
container again. -/
theorem write_ok_container {content : Value → Except String Value} {u w : Value}
    {q : String} {p : List String}
    (hu : u.isContainer = true) (h : write content u (q :: p) = .ok w) :
    w.isContainer = true := by
  unfold write at h
  by_cases hw : q = WILDCARD ∧ u.isArr = true
  · rw [if_pos hw] at h
    cases hl : (u.elems.foldr (fun x (acc : Except String (List Value)) => do
        let y ← write content x p
        let ys ← acc
        pure (y :: ys)) (.ok [])) with
    | error e => rw [hl] at h; exact absurd h (by simp [Except.map])
    | ok ys =>
        rw [hl] at h
        simp only [Except.map] at h
        cases h
        simp [Value.isContainer]
  · rw [if_neg hw, if_pos hu] at h
    by_cases hf : hasField u q
    · rw [if_pos hf] at h
      cases hv : write content (getField u q) p with
      | error e => rw [hv] at h; exact absurd h (by simp [Except.map])
      | ok y =>
          rw [hv] at h
          simp only [Except.map] at h
          cases h
          exact setField_isContainer _ _ hu
    · rw [if_neg hf] at h
      cases hv : content .undefined with
      | error e => rw [hv] at h; exact absurd h (by simp [Except.map])
      | ok y =>
          rw [hv] at h
          simp only [Except.map] at h
          cases h
          exact setField_isContainer _ _ hu

/-- C2 (amended): for a wildcard-free existing path (`pathResolves`), and a
transform whose result is truthy, writing through the path and reading it
back yields the transform of the original read — the claim's
`get(set(value, path, f), path) = f(get(value, path))`.  (The unamended
claim fails for transforms with falsy results, which the read convention
`source[field] || null` collapses to `null`, and for wildcard paths.) -/
theorem get_set_roundtrip (p : List String) :
    ∀ (v : Value) (f : Value → Value) (r : Value),
      pathResolves v p = true → read v p = .ok r → (f r).isTruthy = true →
      (write (fun x => .ok (f x)) v p).bind (fun w => read w p) = .ok (f r) := by
  induction p with
  | nil =>
      intro v f r _ hr _
      simp only [read] at hr
      cases hr
      rfl
  | cons k rest ih =>
      intro v f r hp hr hf
      simp only [pathResolves, Bool.and_eq_true, bne_iff_ne, ne_eq] at hp
      obtain ⟨⟨⟨hk, hcont⟩, htru⟩, hbranch⟩ := hp
      have hnw : ¬(k = WILDCARD ∧ v.isArr = true) := fun hh => hk hh.1
      have hnn : ¬(v = .null ∨ v = .undefined) := by
        rintro (rfl | rfl) <;> simp [Value.isContainer] at hcont
      have hhf : hasField v k = true := hasField_of_truthy htru
      -- the read step reduces to the looked-up value
      rw [read, if_neg hnw, if_neg hnn] at hr
      simp only [if_pos htru] at hr
      rw [if_neg (by simpa using isTruthy_ne_null htru)] at hr
      -- the write step recurses through the field
      rw [write, if_neg hnw, if_pos hcont, if_pos hhf]
      by_cases hC : (getField v k).isContainer = true
      · rw [if_pos hC] at hr
        rw [if_pos hC] at hbranch
        have step := ih (getField v k) f r hbranch hr hf
        cases hw : write (fun x => .ok (f x)) (getField v k) rest with
        | error e => rw [hw] at step; exact absurd step (by simp [Except.bind])
        | ok w' =>
            rw [hw] at step
            simp only [Except.bind] at step
            simp only [Except.map, Except.bind]
            -- now read the written structure back
            have hc' : (setField v k w').isContainer = true := setField_isContainer _ _ hcont
            have hg' : getField (setField v k w') k = w' := getField_setField _ hhf
            have hw'tru : w'.isTruthy = true := by
              cases rest with
              | nil =>
                  simp only [write] at hw
                  cases hw
                  simp only [read] at hr
                  cases hr
                  exact hf
              | cons q p' => exact isContainer_truthy (write_ok_container hC hw)
            rw [read, if_neg (fun hh => hk hh.1),
              if_neg (fun hh => (isContainer_ne_null hc').elim
                (by rcases hh with h1 | h1
                    · exact absurd h1 (isContainer_ne_null hc')
                    · exact absurd h1 (isContainer_ne_undef hc')))]
            simp only [hg', if_pos hw'tru]
            rw [if_neg (by simpa using isTruthy_ne_null hw'tru)]
            by_cases hwC : w'.isContainer = true
            · rw [if_pos hwC]; exact step
            · rw [if_neg hwC]
              cases rest with
              | nil =>
                  simp only [read] at step
                  exact step
              | cons q p' =>
                  exact absurd (write_ok_container hC hw) hwC
      · -- scalar leaf: the path must end here
        rw [if_neg hC] at hr
        rw [if_neg hC] at hbranch
        cases hr
        have hrest : rest = [] := by
          cases rest with
          | nil => rfl
          | cons q p' => simp [List.isEmpty] at hbranch
        subst hrest
        simp only [write, Except.map, Except.bind]
        have hc' : (setField v k (f (getField v k))).isContainer = true :=
          setField_isContainer _ _ hcont
        have hg' : getField (setField v k (f (getField v k))) k = f (getField v k) :=
          getField_setField _ hhf
        rw [read, if_neg (fun hh => hk hh.1),
          if_neg (by rintro (h1 | h1)
                     · exact absurd h1 (isContainer_ne_null hc')
                     · exact absurd h1 (isContainer_ne_undef hc'))]
        simp only [hg', if_pos hf]
        rw [if_neg (by simpa using isTruthy_ne_null hf)]
        by_cases hwC : (f (getField v k)).isContainer = true
        · rw [if_pos hwC]; simp [read]
        · rw [if_neg hwC]

/-- C2 witness inputs: the path `["a"]` exists in `{a: "x"}` and the
transform result `"y"` is truthy. -/
theorem get_set_roundtrip_witness :
    (write (fun x => .ok ((fun _ => Value.str "y") x)) (.obj [("a", .str "x")]) ["a"]).bind
      (fun w => read w ["a"]) = .ok (.str "y") :=
  get_set_roundtrip ["a"] (.obj [("a", .str "x")]) (fun _ => Value.str "y") (.str "x")
    (by decide) (by decide) (by decide)

/-- C2 counterexample: with the transform constantly `false` (a falsy but
legitimate value), `get(set({a:"x"}, ["a"], f), ["a"])` is `null` while
`f(get({a:"x"}, ["a"]))` is `false`, so the claimed identity fails for some
transforms. -/
theorem get_set_roundtrip_counterexample :
    read (.obj [("a", .str "x")]) ["a"] = .ok (.str "x") ∧
    (write (fun _ => .ok (.bool false)) (.obj [("a", .str "x")]) ["a"]).bind
      (fun w => read w ["a"]) = .ok .null ∧
    Value.null ≠ Value.bool false := by decide

/-! ### Wildcard distribution over arrays (claim C4) -/

theorem read_wildcard_fold {rest : List String} {g : Value → Value} :
    ∀ xs : List Value, (∀ x ∈ xs, read x rest = .ok (g x)) →
      xs.foldr (fun x (acc : Except String (List Value)) => do
          let v ← read x rest
          let vs ← acc
          if v = Value.null then pure vs else pure (v :: vs)) (.ok [])
        = .ok ((xs.map g).filter (fun v => v != Value.null))
  | [], _ => rfl
  | x :: xs, hg => by
      have hx := hg x (List.mem_cons_self _ _)
      have ih := read_wildcard_fold xs (fun y hy => hg y (List.mem_cons_of_mem _ hy))
      simp only [List.foldr, hx, ih, exBind_ok]
      by_cases hnull : g x = Value.null
      · rw [if_pos hnull]
        rw [show (List.map g (x :: xs)).filter (fun v => v != Value.null)
            = (List.map g xs).filter (fun v => v != Value.null) from by
          simp [List.filter, hnull]]
        rfl
      · rw [if_neg hnull]
        have hb : (g x != Value.null) = true := by simpa using hnull
        rw [show (List.map g (x :: xs)).filter (fun v => v != Value.null)
            = g x :: (List.map g xs).filter (fun v => v != Value.null) from by
          simp [List.filter, hb]]
        rfl

theorem write_wildcard_fold {rest : List String} {wf : Value → Except String Value}
    {h : Value → Value} :
    ∀ xs : List Value, (∀ x ∈ xs, write wf x rest = .ok (h x)) →
      xs.foldr (fun x (acc : Except String (List Value)) => do
          let y ← write wf x rest
          let ys ← acc
          pure (y :: ys)) (.ok [])
        = .ok (xs.map h)
  | [], _ => rfl
  | x :: xs, hw => by
      have hx := hw x (List.mem_cons_self _ _)
      have ih := write_wildcard_fold xs (fun y hy => hw y (List.mem_cons_of_mem _ hy))
      simp only [List.foldr, hx, ih, exBind_ok]
      rfl

/-- C4 (amended): on an array, a wildcard segment makes `get` recurse on
every element with the remaining path and collect the non-null sub-results
in element order, and makes `set` rewrite every element with the remaining
path — provided every element sub-operation succeeds (a `null`/`undefined`
element under a non-empty remaining path instead raises a TypeError, see
the counterexample). -/
theorem wildcard_distributes (xs : List Value) (rest : List String)
    (wf : Value → Except String Value) (g h : Value → Value)
    (hg : ∀ x ∈ xs, read x rest = .ok (g x))
    (hw : ∀ x ∈ xs, write wf x rest = .ok (h x)) :
    read (.arr xs) (WILDCARD :: rest)
      = .ok (.arr ((xs.map g).filter (fun v => v != Value.null))) ∧
    write wf (.arr xs) (WILDCARD :: rest) = .ok (.arr (xs.map h)) := by
  constructor
  · rw [read, if_pos ⟨rfl, rfl⟩]
    rw [show (Value.arr xs).elems = xs from rfl, read_wildcard_fold xs hg]
    rfl
  · rw [write, if_pos ⟨rfl, rfl⟩]
    rw [show (Value.arr xs).elems = xs from rfl, write_wildcard_fold xs hw]
    rfl

theorem wildcard_distributes_witness :
    read (.arr [.obj [("id", .num 1)], .obj [("id", .num 2)]]) (WILDCARD :: ["id"])
      = .ok (.arr [.num 1, .num 2]) ∧
    write (fun _ => .ok (.num 7)) (.arr [.obj [("id", .num 1)], .obj [("id", .num 2)]])
      (WILDCARD :: ["id"])
      = .ok (.arr [.obj [("id", .num 7)], .obj [("id", .num 7)]]) := by
  have h := wildcard_distributes [.obj [("id", .num 1)], .obj [("id", .num 2)]] ["id"]
    (fun _ => .ok (.num 7)) (fun x => getField x "id") (fun x => setField x "id" (.num 7))
    (by decide) (by decide)
  exact ⟨by rw [h.1]; decide, by rw [h.2]; decide⟩

/-- C4 counterexample: a `null` element with a non-empty remaining path
throws a TypeError instead of being dropped from the wildcard result. -/
theorem wildcard_distributes_counterexample :
    read (.arr [.null]) ["*", "x"]
      = .error "TypeError: cannot read properties of null or undefined" ∧
    (read (.arr [.null]) ["*", "x"]).isOk = false := by decide

/-! ### Missing intermediate keys in set (claim C9) -/

/-- C9 (amended): writing through a key missing from the current object does
not auto-create an intermediate container, but it does not raise either: it
creates that key — terminal or not — holding `transform(absent)`, silently
discarding the remaining path segments. -/
theorem write_missing_key (kvs : List (String × Value)) (k : String)
    (rest : List String) (f : Value → Value)
    (h : hasField (.obj kvs) k = false) :
    write (fun x => .ok (f x)) (.obj kvs) (k :: rest)
      = .ok (.obj (assignKey kvs k (f .undefined))) := by
  rw [write, if_neg (by rintro ⟨_, hh⟩; simp [Value.isArr] at hh),
    if_pos (by simp [Value.isContainer]), if_neg (by simp [h])]
  rfl

theorem write_missing_key_witness :
    write (fun _ => .ok (Value.str "X")) (.obj []) ["a", "b"]
      = .ok (.obj [("a", .str "X")]) := by
  have h := write_missing_key [] "a" ["b"] (fun _ => Value.str "X") (by decide)
  rw [h]
  decide

/-- C9 counterexample: the claim requires a loud failure on a missing
non-terminal key, but the write succeeds, creating `a` with
`transform(absent)` and dropping the rest of the path. -/
theorem write_missing_key_counterexample :
    write (fun _ => .ok (Value.str "X")) (.obj []) ["a", "b"]
      = .ok (.obj [("a", .str "X")]) ∧
    (write (fun _ => .ok (Value.str "X")) (.obj []) ["a", "b"]).isOk = true := by decide

/-! ### The wildcard over non-arrays (claim C10) -/

/-- C10 (amended): on a non-array, `get` treats the wildcard as the ordinary
literal key `"*"` (null when absent, the value when present and truthy) and
on a scalar yields null — except that reading from `null`/`undefined`
throws; `set` treats it as a literal key only on objects, creating or
overwriting `"*"`, while on a primitive value the `in` test throws a
TypeError instead of creating anything. -/
theorem wildcard_literal_on_non_array :
    (∀ (kvs : List (String × Value)) (rest : List String),
        kvs.lookup "*" = none → read (.obj kvs) ("*" :: rest) = .ok .null) ∧
    (∀ (kvs : List (String × Value)) (rest : List String) (v : Value),
        kvs.lookup "*" = some v → v.isTruthy = true → v.isContainer = false →
        read (.obj kvs) ("*" :: rest) = .ok v) ∧
    (∀ (n : Int) (rest : List String), read (.num n) ("*" :: rest) = .ok .null) ∧
    (∀ (s : String) (rest : List String), read (.str s) ("*" :: rest) = .ok .null) ∧
    (∀ rest : List String, (read .null ("*" :: rest)).isOk = false) ∧
    (∀ (kvs : List (String × Value)) (f : Value → Value),
        write (fun x => .ok (f x)) (.obj kvs) ["*"]
          = .ok (.obj (assignKey kvs "*" (f (getField (.obj kvs) "*"))))) ∧
    (∀ (n : Int) (rest : List String) (wf : Value → Except String Value),
        (write wf (.num n) ("*" :: rest)).isOk = false) := by
  have hnw : ∀ v : Value, v.isArr = false → ¬("*" = WILDCARD ∧ v.isArr = true) := by
    rintro v hv ⟨_, hh⟩; rw [hv] at hh; exact absurd hh (by simp)
  refine ⟨?_, ?_, ?_, ?_, ?_, ?_, ?_⟩
  · intro kvs rest hl
    rw [read, if_neg (hnw (.obj kvs) rfl), if_neg (by rintro (h | h) <;> simp at h)]
    simp [getField, hl, Value.isTruthy]
  · intro kvs rest v hl htru hcont
    rw [read, if_neg (hnw (.obj kvs) rfl), if_neg (by rintro (h | h) <;> simp at h)]
    simp only [getField, hl, Option.getD, if_pos htru]
    rw [if_neg (by simpa using isTruthy_ne_null htru), if_neg (by simp [hcont])]
  · intro n rest
    rw [read, if_neg (hnw (.num n) rfl), if_neg (by rintro (h | h) <;> simp at h)]
    simp [getField, Value.isTruthy]
  · intro s rest
    rw [read, if_neg (hnw (.str s) rfl), if_neg (by rintro (h | h) <;> simp at h)]
    simp [getField, Value.isTruthy]
  · intro rest
    rw [read, if_neg (hnw .null rfl), if_pos (Or.inl rfl)]
    rfl
  · intro kvs f
    rw [write, if_neg (hnw (.obj kvs) rfl), if_pos (by simp [Value.isContainer])]
    by_cases hf : hasField (.obj kvs) "*" = true
    · rw [if_pos hf]
      cases hl : kvs.lookup "*" with
      | none =>
          rw [lookup_none_not_hasField kvs hl] at hf
          exact absurd hf (by simp)
      | some u =>
          simp only [write, getField, hl, Option.getD, exBind_ok]
          rfl
    · rw [if_neg hf]
      have : getField (.obj kvs) "*" = .undefined := by
        cases hl : kvs.lookup "*" with
        | none => simp [getField, hl]
        | some u => exact absurd (hasField_obj_of_lookup _ hl) hf
      rw [this]
      rfl
  · intro n rest wf
    rw [write, if_neg (hnw (.num n) rfl), if_neg (by simp [Value.isContainer])]
    rfl

theorem wildcard_literal_witness :
    read (.num 5) ["*"] = .ok .null ∧
    write (fun _ => .ok ((fun _ => Value.str "x") Value.undefined)) (.obj []) ["*"]
      = .ok (.obj [("*", .str "x")]) := by
  have h := wildcard_literal_on_non_array
  refine ⟨h.2.2.1 5 [], ?_⟩
  have h6 := h.2.2.2.2.2.1 [] (fun _ => Value.str "x")
  rw [h6]
  decide

/-- C10 counterexample: `set` on a primitive value does not create a literal
`"*"` key — the `in` operator on a primitive throws a TypeError. -/
theorem wildcard_literal_counterexample :
    write (fun _ => .ok (.str "x")) (.num 5) ["*"]
      = .error "TypeError: cannot use in operator on a primitive" ∧
    (write (fun _ => .ok (.str "x")) (.num 5) ["*"]).isOk = false := by decide

/-! ### Structural generation preserves shape (claim C5) -/

/-- The container shape of a value: nesting of arrays and maps with their
key sets and lengths, scalar leaves erased. -/
inductive Shape where
  | leaf : Shape
  | arr : List Shape → Shape
  | obj : List (String × Shape) → Shape

mutual

def shapeOf : Value → Shape
  | .arr xs => .arr (shapeOfList xs)
  | .obj kvs => .obj (shapeOfObj kvs)
  | _ => .leaf

def shapeOfList : List Value → List Shape
  | [] => []
  | x :: xs => shapeOf x :: shapeOfList xs

def shapeOfObj : List (String × Value) → List (String × Shape)
  | [] => []
  | (k, x) :: xs => (k, shapeOf x) :: shapeOfObj xs

end

mutual

/-- A template value with no `null` (and no `undefined`) leaf. -/
def nullFree : Value → Bool
  | .null => false
  | .undefined => false
  | .arr xs => nullFreeList xs
  | .obj kvs => nullFreeObj kvs
  | _ => true

def nullFreeList : List Value → Bool
  | [] => true
  | x :: xs => nullFree x && nullFreeList xs

def nullFreeObj : List (String × Value) → Bool
  | [] => true
  | (_, x) :: xs => nullFree x && nullFreeObj xs

end

mutual

/-- Specification-side description of `generateContent`: keep containers,
replace every scalar leaf by the transform of its string form. -/
def mapLeaves (tf : String → String) : Value → Value
  | .arr xs => .arr (mapLeavesList tf xs)
  | .obj kvs => .obj (mapLeavesObj tf kvs)
  | v => .str (tf (jsToString v))

def mapLeavesList (tf : String → String) : List Value → List Value
  | [] => []
  | x :: xs => mapLeaves tf x :: mapLeavesList tf xs

def mapLeavesObj (tf : String → String) : List (String × Value) → List (String × Value)
  | [] => []
  | (k, x) :: xs => (k, mapLeaves tf x) :: mapLeavesObj tf xs

end

mutual

theorem generateContent_eq_mapLeaves (tf : String → String) :
    ∀ v : Value, nullFree v = true → generateContent tf v = .ok (mapLeaves tf v)
  | .arr xs, h => by
      simp only [nullFree] at h
      simp only [generateContent, mapLeaves,
        generateContentList_eq_mapLeaves tf xs h, Except.map]
  | .obj kvs, h => by
      simp only [nullFree] at h
      simp only [generateContent, mapLeaves,
        generateContentObj_eq_mapLeaves tf kvs h, Except.map]
  | .null, h => by simp [nullFree] at h
  | .undefined, h => by simp [nullFree] at h
  | .bool b, _ => rfl
  | .num n, _ => rfl
  | .str s, _ => rfl

theorem generateContentList_eq_mapLeaves (tf : String → String) :
    ∀ xs : List Value, nullFreeList xs = true →
      generateContentList tf xs = .ok (mapLeavesList tf xs)
  | [], _ => rfl
  | x :: xs, h => by
      simp only [nullFreeList, Bool.and_eq_true] at h
      simp only [generateContentList, mapLeavesList,
        generateContent_eq_mapLeaves tf x h.1,
        generateContentList_eq_mapLeaves tf xs h.2, exBind_ok]
      rfl

theorem generateContentObj_eq_mapLeaves (tf : String → String) :
    ∀ kvs : List (String × Value), nullFreeObj kvs = true →
      generateContentObj tf kvs = .ok (mapLeavesObj tf kvs)
  | [], _ => rfl
  | (k, x) :: xs, h => by
      simp only [nullFreeObj, Bool.and_eq_true] at h
      simp only [generateContentObj, mapLeavesObj,
        generateContent_eq_mapLeaves tf x h.1,
        generateContentObj_eq_mapLeaves tf xs h.2, exBind_ok]
      rfl

end

mutual

theorem shapeOf_mapLeaves (tf : String → String) :
    ∀ v : Value, shapeOf (mapLeaves tf v) = shapeOf v
  | .arr xs => by simp only [mapLeaves, shapeOf, shapeOfList_mapLeaves tf xs]
  | .obj kvs => by simp only [mapLeaves, shapeOf, shapeOfObj_mapLeaves tf kvs]
  | .null => rfl
  | .undefined => rfl
  | .bool b => rfl
  | .num n => rfl
  | .str s => rfl

theorem shapeOfList_mapLeaves (tf : String → String) :
    ∀ xs : List Value, shapeOfList (mapLeavesList tf xs) = shapeOfList xs
  | [] => rfl
  | x :: xs => by
      simp only [mapLeavesList, shapeOfList, shapeOf_mapLeaves tf x,
        shapeOfList_mapLeaves tf xs]

theorem shapeOfObj_mapLeaves (tf : String → String) :
    ∀ kvs : List (String × Value), shapeOfObj (mapLeavesObj tf kvs) = shapeOfObj kvs
  | [] => rfl
  | (k, x) :: xs => by
      simp only [mapLeavesObj, shapeOfObj, shapeOf_mapLeaves tf x,
        shapeOfObj_mapLeaves tf xs]

end

/-- C5 (amended): on a template with no `null`/`undefined` leaf,
`generateContent` succeeds and returns the value with every scalar leaf
replaced by the transform of its string form; in particular the output has
exactly the container shape of the input (same nesting, array lengths and
key sets).  A `null` leaf instead throws (see the counterexample). -/
theorem generateContent_shape (tf : String → String) (v : Value)
    (h : nullFree v = true) :
    generateContent tf v = .ok (mapLeaves tf v) ∧
    shapeOf (mapLeaves tf v) = shapeOf v :=
  ⟨generateContent_eq_mapLeaves tf v h, shapeOf_mapLeaves tf v⟩

theorem generateContent_shape_witness :
    generateContent (fun s => s ++ "!") (.obj [("a", .num 1), ("b", .arr [.str "x"])])
      = .ok (.obj [("a", .str "1!"), ("b", .arr [.str "x!"])]) ∧
    shapeOf (.obj [("a", .str "1!"), ("b", .arr [.str "x!"])])
      = shapeOf (.obj [("a", .num 1), ("b", .arr [.str "x"])]) := by
  have h := generateContent_shape (fun s => s ++ "!")
    (.obj [("a", .num 1), ("b", .arr [.str "x"])]) (by decide)
  have he : mapLeaves (fun s => s ++ "!") (.obj [("a", .num 1), ("b", .arr [.str "x"])])
      = .obj [("a", .str "1!"), ("b", .arr [.str "x!"])] := by decide
  exact ⟨by rw [h.1, he], by rw [← he]; exact h.2⟩

/-- C5 counterexample: the claim quantifies over every well-formed template
value, but a `null` leaf — a legitimate JSON scalar of the data model —
makes `generateContent` evaluate `null.constructor` and throw, producing no
output at all. -/
theorem generateContent_shape_counterexample :
    generateContent (fun s => s) Value.null
      = .error "TypeError: cannot read constructor of null" ∧
    (generateContent (fun s => s) (.arr [.null])).isOk = false := by decide

/-! ### repeat with a literal count (claim C7) -/

theorem joinCopies_length (l : List Value) : ∀ n, (joinCopies n l).length = n * l.length
  | 0 => by simp [joinCopies]
  | n + 1 => by
      simp only [joinCopies, List.length_append, joinCopies_length l n, Nat.succ_mul]
      omega

theorem takeWhile_all {α : Type} {p : α → Bool} :
    ∀ cs : List α, cs.all p = true → cs.takeWhile p = cs
  | [], _ => rfl
  | c :: cs, h => by
      simp only [List.all_cons, Bool.and_eq_true] at h
      simp [List.takeWhile_cons, h.1, takeWhile_all cs h.2]

theorem splitDD_all_digits : ∀ cs : List Char, cs.all Char.isDigit = true → splitDD cs = [cs]
  | [], _ => rfl
  | [c], _ => rfl
  | c :: d :: rest, h => by
      simp only [List.all_cons, Bool.and_eq_true] at h
      have hc : c ≠ '.' := fun e => by rw [e] at h; exact absurd h.1 (by decide)
      rw [splitDD, if_neg (fun hh => hc hh.1)]
      rw [splitDD_all_digits (d :: rest) (by simp [List.all_cons, h.2.1, h.2.2])]

theorem parseIntJS_digits (cs : List Char) (hne : cs ≠ [])
    (hdig : cs.all Char.isDigit = true) : parseIntJS cs = some (digitsToNat cs) := by
  cases cs with
  | nil => exact absurd rfl hne
  | cons c rest =>
      simp only [List.all_cons, Bool.and_eq_true] at hdig
      have hsp : c ≠ ' ' := fun e => by rw [e] at hdig; exact absurd hdig.1 (by decide)
      have hmi : c ≠ '-' := fun e => by rw [e] at hdig; exact absurd hdig.1 (by decide)
      have hpl : c ≠ '+' := fun e => by rw [e] at hdig; exact absurd hdig.1 (by decide)
      rw [parseIntJS]
      rw [show (c :: rest).dropWhile (fun x => x = ' ') = c :: rest from by
        simp [List.dropWhile_cons, hsp]]
      rw [if_neg (by simpa using hmi), if_neg (by simpa using hpl)]
      rw [parseDigits]
      rw [takeWhile_all (c :: rest) (by simp [List.all_cons, hdig.1, hdig.2])]
      simp [List.isEmpty]

/-- C7: for a formula that is a literal decimal numeral `n`, `repeat`
returns exactly `n` whole copies of the original list concatenated in
order: the result length is `n * |list|` and a zero count yields the empty
list. -/
theorem repeat_literal_formula (l : List Value) (formula : String) (n : Nat) (rnd : ℚ)
    (hne : formula.data ≠ []) (hdig : formula.data.all Char.isDigit = true)
    (hn : digitsToNat formula.data = n) :
    repeatContent l formula rnd = joinCopies n l ∧
    (repeatContent l formula rnd).length = n * l.length ∧
    (n = 0 → repeatContent l formula rnd = []) := by
  have heq : repeatContent l formula rnd = joinCopies n l := by
    rw [repeatContent]
    rw [splitDD_all_digits formula.data hdig]
    rw [if_neg (by simp)]
    rw [parseIntJS_digits formula.data hne hdig, hn]
    simp [Option.getD, Int.toNat_natCast]
  refine ⟨heq, by rw [heq]; exact joinCopies_length l n, ?_⟩
  intro h0
  rw [heq, h0]
  rfl

theorem repeat_literal_formula_witness :
    repeatContent [.num 1, .num 2, .num 3] "5" 0
      = joinCopies 5 [.num 1, .num 2, .num 3] ∧
    (repeatContent [.num 1, .num 2, .num 3] "5" 0).length = 15 := by
  have h := repeat_literal_formula [.num 1, .num 2, .num 3] "5" 5 0
    (by decide) (by decide) (by decide)
  exact ⟨h.1, by rw [h.2.1]; decide⟩

/-! ### repeat with a range formula (claim C6) -/

theorem repeatContent_range_5_10 (l : List Value) (rnd : ℚ) :
    repeatContent l "5..10" rnd = joinCopies (Int.toNat ⌊rnd * 6 + 5⌋) l := by
  have hsplit : splitDD "5..10".data = [['5'], ['1', '0']] := by decide
  rw [repeatContent, hsplit]
  rw [if_pos (by simp)]
  have h5 : jsOrNum (parseIntJS ['5']) (l.length : Int) = 5 := rfl
  have h10 : jsOrNum (parseIntJS ['1', '0']) (l.length : Int) = 10 := rfl
  simp only [List.headD, List.drop, h5, h10]
  norm_num

/-- C6 (amended): `repeat(list, "5..10")` draws one integer count
`⌊rnd·(10−5+1)+5⌋ ∈ [5,10]` and returns that many whole copies of the list
concatenated, so the result length is `count · |list|`; the length itself
lies in `[5,10]` exactly when the list is a singleton (see the
counterexample for a longer list). -/
theorem repeat_range_draw (l : List Value) (rnd : ℚ) (h0 : 0 ≤ rnd) (h1 : rnd < 1) :
    repeatContent l "5..10" rnd = joinCopies (Int.toNat ⌊rnd * 6 + 5⌋) l ∧
    5 ≤ ⌊rnd * 6 + 5⌋ ∧ ⌊rnd * 6 + 5⌋ ≤ 10 ∧
    (repeatContent l "5..10" rnd).length = (Int.toNat ⌊rnd * 6 + 5⌋) * l.length ∧
    (l.length = 1 →
      5 ≤ (repeatContent l "5..10" rnd).length ∧
      (repeatContent l "5..10" rnd).length ≤ 10) := by
  have heq := repeatContent_range_5_10 l rnd
  have hlo : 5 ≤ ⌊rnd * 6 + 5⌋ := by
    have hq : ((5:ℤ):ℚ) ≤ rnd * 6 + 5 := by push_cast; nlinarith
    exact Int.le_floor.2 hq
  have hhi : ⌊rnd * 6 + 5⌋ ≤ 10 := by
    have hq : rnd * 6 + 5 < ((11:ℤ):ℚ) := by push_cast; nlinarith
    have := Int.floor_lt.2 hq
    omega
  have hlen : (repeatContent l "5..10" rnd).length = (Int.toNat ⌊rnd * 6 + 5⌋) * l.length := by
    rw [heq]; exact joinCopies_length l _
  refine ⟨heq, hlo, hhi, hlen, ?_⟩
  intro hone
  rw [hlen, hone]
  omega

theorem repeat_range_draw_witness :
    5 ≤ ⌊(1/2 : ℚ) * 6 + 5⌋ ∧ ⌊(1/2 : ℚ) * 6 + 5⌋ ≤ 10 ∧
    5 ≤ (repeatContent [.num 1] "5..10" (1/2)).length ∧
    (repeatContent [.num 1] "5..10" (1/2)).length ≤ 10 := by
  have h := repeat_range_draw [.num 1] (1/2) (by norm_num) (by norm_num)
  have hone := h.2.2.2.2 (by decide)
  exact ⟨h.2.1, h.2.2.1, hone.1, hone.2⟩

/-- C6 counterexample: for a three-element list and the draw `rnd = 0`, the
count is 5 but the result length is 15 — not in `[5,10]` as the claim
states for every list. -/
theorem repeat_range_counterexample :
    (0:ℚ) ≤ 0 ∧ (0:ℚ) < 1 ∧
    (repeatContent [.num 1, .num 2, .num 3] "5..10" 0).length = 15 ∧
    ¬(5 ≤ (15:Nat) ∧ (15:Nat) ≤ 10) := by
  refine ⟨le_refl _, by norm_num, ?_, by omega⟩
  rw [repeatContent_range_5_10]
  rw [show ((0:ℚ) * 6 + 5) = ((5:ℤ):ℚ) by norm_num, Int.floor_intCast]
  decide

/-! ### cast totality and diagnostics (claim C8) -/

theorem castContent_absent (t : String) (v : Value) (h : v = .undefined ∨ v = .null) :
    castContent t v = .ok (.str ("<cannot cast \"" ++ jsToString v ++ "\" as " ++ t ++ ">")) := by
  rw [castContent, if_pos h]

/-- C8: casting never throws for the supported kinds — `cast("number",
"100") = 100`, `cast("boolean", "true") = true`; an absent value, an
unparseable number and a non-true/false boolean each yield an inline
diagnostic string rather than an exception; and an error is raised exactly
for an unsupported kind (on a present value). -/
theorem cast_totality :
    castContent "number" (.str "100") = .ok (.num 100) ∧
    castContent "boolean" (.str "true") = .ok (.bool true) ∧
    (∀ (t : String) (v : Value), (v = .undefined ∨ v = .null) →
        ∃ s, castContent t v = .ok (.str s)) ∧
    (∀ v : Value, v ≠ .undefined → v ≠ .null → strToNumberJS (jsToString v) = none →
        ∃ s, castContent "number" v = .ok (.str s)) ∧
    (∀ v : Value, v ≠ .undefined → v ≠ .null →
        toLowerJS (jsToString v) ≠ "true" → toLowerJS (jsToString v) ≠ "false" →
        ∃ s, castContent "boolean" v = .ok (.str s)) ∧
    (∀ (t : String) (v : Value), (t = "number" ∨ t = "boolean" ∨ t = "string") →
        (castContent t v).isOk = true) ∧
    (∀ (t : String) (v : Value), (castContent t v).isOk = false →
        ¬(t = "number" ∨ t = "boolean" ∨ t = "string")) ∧
    (∀ (t : String) (v : Value), ¬(t = "number" ∨ t = "boolean" ∨ t = "string") →
        v ≠ .undefined → v ≠ .null → (castContent t v).isOk = false) := by
  have htot : ∀ (t : String) (v : Value), (t = "number" ∨ t = "boolean" ∨ t = "string") →
      (castContent t v).isOk = true := by
    intro t v ht
    by_cases habs : v = .undefined ∨ v = .null
    · rw [castContent_absent t v habs]; rfl
    · rcases ht with rfl | rfl | rfl
      · rw [castContent, if_neg habs, if_pos rfl]
        cases strToNumberJS (jsToString v) <;> rfl
      · rw [castContent, if_neg habs, if_neg (by decide), if_pos rfl]
        by_cases h1 : toLowerJS (jsToString v) = "true"
        · rw [if_pos h1]; rfl
        · rw [if_neg h1]
          by_cases h2 : toLowerJS (jsToString v) = "false"
          · rw [if_pos h2]; rfl
          · rw [if_neg h2]; rfl
      · rw [castContent, if_neg habs, if_neg (by decide), if_neg (by decide), if_pos rfl]
        rfl
  refine ⟨by decide, by decide, ?_, ?_, ?_, htot, ?_, ?_⟩
  · intro t v h
    exact ⟨_, castContent_absent t v h⟩
  · intro v hu hn hnan
    rw [castContent, if_neg (by simp [hu, hn]), if_pos rfl, hnan]
    exact ⟨_, rfl⟩
  · intro v hu hn h1 h2
    rw [castContent, if_neg (by simp [hu, hn]), if_neg (by decide), if_pos rfl,
      if_neg h1, if_neg h2]
    exact ⟨_, rfl⟩
  · intro t v hko
    intro ht
    rw [htot t v ht] at hko
    exact absurd hko (by simp)
  · intro t v ht hu hn
    rcases (not_or.1 ht) with ⟨h1, hrest⟩
    rcases (not_or.1 hrest) with ⟨h2, h3⟩
    rw [castContent, if_neg (by simp [hu, hn]), if_neg h1, if_neg h2, if_neg h3]
    rfl

theorem cast_totality_witness :
    (castContent "boolean" (.str "100")).isOk = true ∧
    (castContent "xxxxxxx" (.obj [])).isOk = false := by
  have h := cast_totality
  exact ⟨h.2.2.2.2.2.1 "boolean" (.str "100") (by simp),
    h.2.2.2.2.2.2.2 "xxxxxxx" (.obj []) (by decide) (by decide) (by decide)⟩

end Samplest
